import Mathlib

/-!
Shallow embedding of the TL (Type Language) binary codec runtime and schema
argument model of this repository (src/tl/tlobject.py and
src/tl/generator/parsers/tlobject/tlarg.py), together with theorems settling
the specification claims about them.

Python `bytes` values are modelled as `List Nat` (each entry a byte value),
Python `str` values as `List Char`, and the mutable `BinaryReader` object as
an explicit state record threaded through each operation.  An operation that
can raise returns `Except ReadError α × BinaryReader`: the returned state
reflects exactly the mutations performed before the exception was raised,
matching Python semantics where the object survives the raise.
-/

namespace TLSpec

/-- Errors raised by the codec runtime.  `structError` models Python
`struct.error` raised by `struct.unpack_from` (its message reports the
required byte count, the offset and the actual buffer size);
`bufferError` models the `BufferError` raised by `BinaryReader.read`
(reporting requested length, obtained length, the partial chunk and the
previously read chunk `_last`); `invalidBool` models the `RuntimeError`
of `tgread_bool`; `unknownConstructor` models the generic `Exception`
carrying the constructor id and remaining bytes in `tgread_object`;
`fuelExhausted` is an artifact of the fuel-bounded embedding of the
recursive `tgread_object` and corresponds to no Python behaviour. -/
inductive ReadError where
  | structError (requested : Nat) (offset : Int) (bufLen : Nat)
  | bufferError (requested : Nat) (got : Nat) (chunk : List Nat) (lastRead : Option (List Nat))
  | invalidBool (value : Int)
  | unknownConstructor (cid : Int) (remaining : List Nat)
  | fuelExhausted
deriving DecidableEq, Repr

/-- State of `BinaryReader` (src/tl/tlobject.py): the byte buffer
`self.stream`, the integer cursor `self.position` and the `_last`
diagnostic chunk.  The registry `tl_objects` is passed separately to the
operations that consult it. -/
structure BinaryReader where
  stream : List Nat
  position : Int
  lastRead : Option (List Nat)
deriving DecidableEq, Repr

/-- Python index clamping used by slice endpoints: a negative index counts
from the end (clamped below at 0), a nonnegative one is clamped above at the
length. -/
def pyBound (n : Nat) (i : Int) : Nat :=
  if i < 0 then ((n : Int) + i).toNat else min n i.toNat

/-- Python slice `l[a:b]`. -/
def pySlice (l : List Nat) (a b : Int) : List Nat :=
  (l.take (pyBound l.length b)).drop (pyBound l.length a)

/-- Offset normalization of `struct.unpack_from(fmt, buffer, offset)` for a
format of width `width` over a buffer of length `n`: a negative offset counts
from the end; the unpack succeeds iff `width` bytes are available at the
normalized offset. -/
def structNormOff (n : Nat) (off : Int) : Int :=
  if off < 0 then off + (n : Int) else off

/-- See `structNormOff`: the unpack succeeds iff `width` bytes are available
at the normalized offset. -/
def structOffset (width n : Nat) (off : Int) : Option Nat :=
  if 0 ≤ structNormOff n off ∧ (structNormOff n off).toNat + width ≤ n then
    some (structNormOff n off).toNat
  else none

/-- Little-endian value of a byte list (first byte least significant),
as computed by `struct.unpack` for unsigned formats and by
`int.from_bytes(-, 'little')`. -/
def leVal : List Nat → Nat
  | [] => 0
  | b :: bs => b + 256 * leVal bs

/-- Two's-complement reinterpretation of an unsigned `width`-byte value,
as computed by the signed `struct` formats and `int.from_bytes(-, signed=True)`. -/
def toSigned (width : Nat) (u : Nat) : Int :=
  if u < 2 ^ (8 * width - 1) then (u : Int) else (u : Int) - 2 ^ (8 * width)

/-- `BinaryReader.read_byte`: `struct.unpack_from("<B", stream, position)`,
then `position += 1`.  On unpack failure the state is unchanged. -/
def read_byte (r : BinaryReader) : Except ReadError Nat × BinaryReader :=
  match structOffset 1 r.stream.length r.position with
  | none => (.error (.structError 1 r.position r.stream.length), r)
  | some o => (.ok (r.stream.getD o 0), { r with position := r.position + 1 })

/-- `BinaryReader.read_int`: `struct.unpack_from('<i' or '<I', stream, position)`,
then `position += 4`.  On unpack failure the state is unchanged. -/
def read_int (r : BinaryReader) (signed : Bool) : Except ReadError Int × BinaryReader :=
  match structOffset 4 r.stream.length r.position with
  | none => (.error (.structError 4 r.position r.stream.length), r)
  | some o =>
    let u := leVal ((r.stream.drop o).take 4)
    (.ok (if signed then toSigned 4 u else (u : Int)), { r with position := r.position + 4 })

/-- `BinaryReader.read_long`: 8-byte little-endian integer. -/
def read_long (r : BinaryReader) (signed : Bool) : Except ReadError Int × BinaryReader :=
  match structOffset 8 r.stream.length r.position with
  | none => (.error (.structError 8 r.position r.stream.length), r)
  | some o =>
    let u := leVal ((r.stream.drop o).take 8)
    (.ok (if signed then toSigned 8 u else (u : Int)), { r with position := r.position + 8 })

/-- `BinaryReader.read`: for `length >= 0` slice `stream[position:position+length]`,
advance the position by `length`, and raise `BufferError` when fewer than
`length` bytes were obtained (the position stays advanced and `_last` is not
updated); for negative `length` read everything remaining.  `_last` is set to
the result on success. -/
def read (r : BinaryReader) (length : Int) : Except ReadError (List Nat) × BinaryReader :=
  if 0 ≤ length then
    let result := pySlice r.stream r.position (r.position + length)
    if result.length ≠ length.toNat then
      (.error (.bufferError length.toNat result.length result r.lastRead),
       { r with position := r.position + length })
    else
      (.ok result, { r with position := r.position + length, lastRead := some result })
  else
    let result := pySlice r.stream r.position r.stream.length
    (.ok result, { r with position := r.position + result.length, lastRead := some result })

/-- `BinaryReader.read_bytes`: `self.read(length)[::-1]`. -/
def read_bytes (r : BinaryReader) (length : Int) : Except ReadError (List Nat) × BinaryReader :=
  match read r length with
  | (.error e, r') => (.error e, r')
  | (.ok result, r') => (.ok result.reverse, r')

/-- `BinaryReader.read_large_int`: `int.from_bytes(self.read(bits // 8), 'little', signed)`. -/
def read_large_int (r : BinaryReader) (bits : Nat) (signed : Bool) :
    Except ReadError Int × BinaryReader :=
  match read r ((bits / 8 : Nat) : Int) with
  | (.error e, r') => (.error e, r')
  | (.ok bs, r') => (.ok (if signed then toSigned bs.length (leVal bs) else (leVal bs : Int)), r')

/-- `BinaryReader.seek`: `self.position += offset`. -/
def seek (r : BinaryReader) (offset : Int) : BinaryReader :=
  { r with position := r.position + offset }

/-- `BinaryReader.close`: `self.stream = b''`. -/
def close (r : BinaryReader) : BinaryReader :=
  { r with stream := [] }

/-- Shared tail of `BinaryReader.tgread_bytes`: `data = self.read(length)`,
then `if padding > 0: self.read(4 - padding)`, returning `data`. -/
def tgread_bytes_payload (r : BinaryReader) (length padding : Nat) :
    Except ReadError (List Nat) × BinaryReader :=
  match read r (length : Int) with
  | (.error e, r') => (.error e, r')
  | (.ok data, r') =>
    if padding > 0 then
      match read r' ((4 - padding : Nat) : Int) with
      | (.error e, r'') => (.error e, r'')
      | (.ok _, r'') => (.ok data, r'')
    else (.ok data, r')

/-- `BinaryReader.tgread_bytes`: read the first length byte; `254` selects the
3-byte little-endian length header (padding computed from the payload length
alone), any other value is itself the length (padding computed counting the
length byte). -/
def tgread_bytes (r : BinaryReader) : Except ReadError (List Nat) × BinaryReader :=
  match read_byte r with
  | (.error e, r1) => (.error e, r1)
  | (.ok first_byte, r1) =>
    if first_byte = 254 then
      match read_byte r1 with
      | (.error e, r2) => (.error e, r2)
      | (.ok b0, r2) =>
        match read_byte r2 with
        | (.error e, r3) => (.error e, r3)
        | (.ok b1, r3) =>
          match read_byte r3 with
          | (.error e, r4) => (.error e, r4)
          | (.ok b2, r4) =>
            let length := b0 ||| (b1 <<< 8) ||| (b2 <<< 16)
            tgread_bytes_payload r4 length (length % 4)
    else
      tgread_bytes_payload r1 first_byte ((first_byte + 1) % 4)

/-- `BinaryReader.tgread_bool`: read an unsigned 4-byte value; `0x997275b5`
is `boolTrue`, `0xbc799737` is `boolFalse`, anything else raises
`RuntimeError('Invalid boolean code ...')`. -/
def tgread_bool (r : BinaryReader) : Except ReadError Bool × BinaryReader :=
  match read_int r false with
  | (.error e, r') => (.error e, r')
  | (.ok v, r') =>
    if v = 0x997275b5 then (.ok true, r')
    else if v = 0xbc799737 then (.ok false, r')
    else (.error (.invalidBool v), r')

/-- `TLObject.serialize_bytes` (src/tl/tlobject.py): the two-branch
length-delimited byte-string encoding.  `bytes(padding)` is `padding` zero
bytes; `bytes([...])` truncation of the header bytes is the `% 256` in the
source. -/
def serialize_bytes (data : List Nat) : List Nat :=
  if data.length < 254 then
    let padding0 := (data.length + 1) % 4
    let padding := if padding0 ≠ 0 then 4 - padding0 else padding0
    [data.length] ++ data ++ List.replicate padding 0
  else
    let padding0 := data.length % 4
    let padding := if padding0 ≠ 0 then 4 - padding0 else padding0
    [254, data.length % 256, (data.length >>> 8) % 256, (data.length >>> 16) % 256]
      ++ data ++ List.replicate padding 0

/-- A fresh reader over a buffer, as built by `BinaryReader.__init__`. -/
def mkReader (s : List Nat) : BinaryReader := ⟨s, 0, none⟩

/-- The byte string decoded from a buffer by `tgread_bytes` on a fresh
reader (empty on a decode error); used to state the
encode-after-decode direction of the round-trip claim. -/
def tgDecodeVal (buf : List Nat) : List Nat :=
  match (tgread_bytes (mkReader buf)).1 with
  | .ok d => d
  | .error _ => []

/-- The spec's out-of-data error is the `BufferError` raised by
`BinaryReader.read`, the only error shape reporting the requested length, the
available length and the last successfully read chunk. -/
def is_out_of_data : ReadError → Bool
  | .bufferError _ _ _ _ => true
  | _ => false

/-- Result values of polymorphic decode: booleans and vectors are produced by
the fallback branches of `tgread_object`; `objV` stands for an instance
produced by a registered class's `from_reader`. -/
inductive TgVal where
  | boolV (b : Bool)
  | vecV (xs : List TgVal)
  | objV (cid : Int) (payload : List Nat)

/-- The `tl_objects` registry of `BinaryReader`: a partial map from
constructor ids to the `from_reader` behaviour of the registered class. -/
def TLRegistry : Type :=
  Int → Option (BinaryReader → Except ReadError TgVal × BinaryReader)

/-- The list comprehension `[self.tgread_object() for _ in range(n)]`:
run the element decoder `n` times, propagating the first exception. -/
def runVector (f : BinaryReader → Except ReadError TgVal × BinaryReader) :
    Nat → BinaryReader → Except ReadError (List TgVal) × BinaryReader
  | 0, r => (.ok [], r)
  | n + 1, r =>
    match f r with
    | (.error e, r1) => (.error e, r1)
    | (.ok v, r1) =>
      match runVector f n r1 with
      | (.error e, r2) => (.error e, r2)
      | (.ok vs, r2) => (.ok (v :: vs), r2)

/-- `BinaryReader.tgread_object`, bounded by recursion fuel (the Python code
recurses on nested vectors; every claim proved below is independent of the
fuel as long as it is positive).  Reads the 4-byte unsigned constructor id;
dispatches through the registry; otherwise interprets the boolean sentinels
and the vector tag `0x1cb5c415` (element count read as a signed int, a
negative count giving an empty range); otherwise seeks back 4 bytes, builds
the unknown-constructor error from the id and `self.read()` (which sets
`_last` to everything from the rewound position), restores the rewound
position and raises. -/
def tgread_object (reg : TLRegistry) : Nat → BinaryReader → Except ReadError TgVal × BinaryReader
  | 0, r => (.error .fuelExhausted, r)
  | fuel + 1, r =>
    match read_int r false with
    | (.error e, r1) => (.error e, r1)
    | (.ok cid, r1) =>
      match reg cid with
      | some from_reader => from_reader r1
      | none =>
        if cid = 0x997275b5 then (.ok (.boolV true), r1)
        else if cid = 0xbc799737 then (.ok (.boolV false), r1)
        else if cid = 0x1cb5c415 then
          match read_int r1 true with
          | (.error e, r2) => (.error e, r2)
          | (.ok n, r2) =>
            match runVector (tgread_object reg fuel) n.toNat r2 with
            | (.error e, r3) => (.error e, r3)
            | (.ok xs, r3) => (.ok (.vecV xs), r3)
        else
          match read (seek r1 (-4)) (-1) with
          | (.error e, r3) => (.error e, r3)
          | (.ok rest, r3) =>
            (.error (.unknownConstructor cid rest), { r3 with position := (seek r1 (-4)).position })


/-! ### Schema argument model (src/tl/generator/parsers/tlobject/tlarg.py)

Python `str` is modelled as `List Char`; the schema tokens are ASCII, where
Python's `\w`, `\d`, `str.islower` coincide with the ASCII классes below.
The two `re.match` patterns of `TLArg.__init__` are implemented as explicit
backtracking matchers with Python's leftmost, greedy-with-backtracking
semantics. -/

/-- Python `\w` on the ASCII range: letters, digits and underscore. -/
def isWordChar (c : Char) : Bool := c.isAlphanum || c == '_'

/-- The character class `[\w<>.]` of the third flag-pattern group. -/
def isFlagTypeChar (c : Char) : Bool := isWordChar c || c == '<' || c == '>' || c == '.'

/-- The character class `[\w\d.]` of the vector-pattern group. -/
def isVecInnerChar (c : Char) : Bool := isWordChar c || c == '.'

/-- Length of the maximal prefix of characters satisfying `p` — the maximal
match a greedy `class+` quantifier starts from. -/
def runLen (p : Char → Bool) : List Char → Nat
  | [] => 0
  | c :: cs => if p c then runLen p cs + 1 else 0

/-- Try candidates `k, k-1, ..., 1` in order and return the first success:
the backtracking order of a greedy `+` quantifier. -/
def firstSome {α : Type} (f : Nat → Option α) : Nat → Option α
  | 0 => none
  | k + 1 =>
    match f (k + 1) with
    | some v => some v
    | none => firstSome f k

/-- Attempt of the flag pattern after `(\w+)` chose `g1` and `.` consumed one
character: `(\d+)` takes `l2` characters of `rest2` (the candidates supplied
by `matchFlag` all lie inside the maximal digit run, as in the regex engine),
then the literal `?`, then the greedy nonempty `([\w<>.]+)`. -/
def flagTryG2 (g1 rest2 : List Char) (l2 : Nat) :
    Option (List Char × List Char × List Char) :=
  match rest2.drop l2 with
  | c :: rest4 =>
    if c = '?' then
      if 0 < runLen isFlagTypeChar rest4 then
        some (g1, rest2.take l2, rest4.take (runLen isFlagTypeChar rest4))
      else none
    else none
  | [] => none

/-- Attempt of the flag pattern with `(\w+)` of length `l1` (the candidates
supplied by `matchFlag` lie inside the maximal word run): one arbitrary
non-newline character for the unescaped `.`, then the `(\d+)\?(...)` tail,
greedy over the digit-group length. -/
def flagTryG1 (s : List Char) (l1 : Nat) : Option (List Char × List Char × List Char) :=
  match s.drop l1 with
  | c :: rest2 =>
    if c ≠ '\n' then firstSome (flagTryG2 (s.take l1) rest2) (runLen Char.isDigit rest2)
    else none
  | [] => none

/-- `re.match(r'(\w+).(\d+)\?([\w<>.]+)', s)`: the groups of the match, if
any, with Python semantics (anchored at the start, greedy quantifiers with
backtracking, `.` matching anything but a newline). -/
def matchFlag (s : List Char) : Option (List Char × List Char × List Char) :=
  firstSome (flagTryG1 s) (runLen isWordChar s)

/-- `re.match(r'[Vv]ector<([\w\d.]+)>', s)`: the inner-type group of the
match, if any. -/
def matchVector (s : List Char) : Option (List Char) :=
  match s with
  | c :: rest =>
    if c = 'V' ∨ c = 'v' then
      if rest.take 6 = "ector<".data then
        firstSome
          (fun l =>
            match (rest.drop 6).drop l with
            | c :: _ => if c = '>' then some ((rest.drop 6).take l) else none
            | [] => none)
          (runLen isVecInnerChar (rest.drop 6))
      else none
    else none
  | [] => none

/-- Python `str.lstrip('!')`: drop every leading exclamation mark. -/
def lstripBang (l : List Char) : List Char :=
  match l with
  | c :: cs => if c = '!' then lstripBang cs else l
  | [] => []

/-- `s.split('.')[-1]` — the text after the last dot (the whole string when
there is no dot; the empty list when the string ends with a dot). -/
def lastComponent (l : List Char) : List Char :=
  l.foldl (fun acc c => if c = '.' then [] else acc ++ [c]) []

/-- Python `str.islower` on a single ASCII character. -/
def isLowerAscii (c : Char) : Bool := 'a' ≤ c && c ≤ 'z'

/-- Value of an ASCII digit. -/
def charToDigit (c : Char) : Nat := c.toNat - 48

/-- Python `int(...)` on a string of decimal digits. -/
def parseNatChars (l : List Char) : Nat :=
  l.foldl (fun acc c => 10 * acc + charToDigit c) 0

/-- The ASCII digit of `d % 10`-like values; callers pass `d < 10`. -/
def decDigit : Nat → Char
  | 0 => '0'
  | 1 => '1'
  | 2 => '2'
  | 3 => '3'
  | 4 => '4'
  | 5 => '5'
  | 6 => '6'
  | 7 => '7'
  | 8 => '8'
  | _ => '9'

/-- Fuel-bounded digit emission; the fuel strictly dominates the value, so
`natToChars` below never exhausts it. -/
def natToCharsAux : Nat → Nat → List Char
  | 0, _ => []
  | fuel + 1, n =>
    if n < 10 then [decDigit n]
    else natToCharsAux fuel (n / 10) ++ [decDigit (n % 10)]

/-- Decimal rendering of a natural number, as Python `'{}'.format` prints a
nonnegative `int`. -/
def natToChars (n : Nat) : List Char := natToCharsAux (n + 1) n

/-- Decimal rendering of a Python `int`. -/
def intRepr (i : Int) : List Char :=
  if i < 0 then '-' :: natToChars (-i).toNat else natToChars i.toNat

/-- The fields `TLArg.__init__` computes; names follow the Python attributes.
`use_vector_id` is only assigned in the vector branch in Python and is
modelled as `false` otherwise (it is only read when `is_vector` is true). -/
structure TLArg where
  name : List Char
  is_vector : Bool
  flag : Option (List Char)
  skip_constructor_id : Bool
  flag_index : Int
  flag_indicator : Bool
  type : List Char
  is_generic : Bool
  use_vector_id : Bool
  generic_definition : Bool
deriving DecidableEq, Repr

/-- `self.type.split('.')[-1][0].islower()`: `none` models the `IndexError`
Python raises at the `[0]` indexing when the final dotted component of the
resolved type is empty (a type ending in a dot). -/
def skip_constructor_check (t : List Char) : Option Bool :=
  match lastComponent t with
  | [] => none
  | c :: _ => some (isLowerAscii c)

/-- The vector-match step and final field assembly of `TLArg.__init__`,
shared by the flag-match and no-flag-match paths (straight-line tail of the
Python constructor).  `none` propagates the `IndexError` of the
`skip_constructor_id` computation: on such a token the Python constructor
raises and no `TLArg` is produced. -/
def mkTLArgVec (name : List Char) (is_generic : Bool) (flag : Option (List Char))
    (flag_index : Int) (t1 : List Char) (generic_definition : Bool) : Option TLArg :=
  match matchVector t1 with
  | some inner =>
    match skip_constructor_check inner with
    | none => none
    | some skip =>
      some
        { name := name, is_vector := true, flag := flag,
          skip_constructor_id := skip,
          flag_index := flag_index, flag_indicator := false, type := inner,
          is_generic := is_generic, use_vector_id := decide (t1.head? = some 'V'),
          generic_definition := generic_definition }
  | none =>
    match skip_constructor_check t1 with
    | none => none
    | some skip =>
      some
        { name := name, is_vector := false, flag := flag,
          skip_constructor_id := skip,
          flag_index := flag_index, flag_indicator := false, type := t1,
          is_generic := is_generic, use_vector_id := false,
          generic_definition := generic_definition }

/-- `TLArg.__init__(name, arg_type, generic_definition)`: rename `self` and
`from`; `#` is the flag indicator of canonical type `int`; otherwise record
generic-ness from a leading `!`, strip all leading `!`, resolve an optional
`FLAGS.N?T` wrapper through `matchFlag` (`int(...)` of the bit group), then
an optional vector wrapper through `matchVector`, and derive
`skip_constructor_id` from the case of the first character of the last dotted
component — `none` models the `IndexError` raised there when that component
is empty (the `#` branch performs no such indexing). -/
def mkTLArg (name arg_type : List Char) (generic_definition : Bool) : Option TLArg :=
  let name' :=
    if name = "self".data then "is_self".data
    else if name = "from".data then "from_".data
    else name
  if arg_type = "#".data then
    some
      { name := name', is_vector := false, flag := none, skip_constructor_id := false,
        flag_index := -1, flag_indicator := true, type := "int".data, is_generic := false,
        use_vector_id := false, generic_definition := generic_definition }
  else
    let isGen := decide (arg_type.head? = some '!')
    match matchFlag (lstripBang arg_type) with
    | some (g1, g2, g3) =>
      mkTLArgVec name' isGen (some g1) (parseNatChars g2 : Int) g3 generic_definition
    | none =>
      mkTLArgVec name' isGen none (-1) (lstripBang arg_type) generic_definition

/-- `TLArg.real_type`: rebuild the canonical token — flag indicator to `#`,
vector wrapping per `use_vector_id`, `!` for generics, and the
`FLAG.N?...` prefix (Python formats `flag_index` in decimal). -/
def TLArg.real_type (a : TLArg) : List Char :=
  let rt0 := a.type
  let rt1 := if a.flag_indicator then "#".data else rt0
  let rt2 :=
    if a.is_vector then
      if a.use_vector_id then "Vector<".data ++ rt1 ++ ">".data
      else "vector<".data ++ rt1 ++ ">".data
    else rt1
  let rt3 := if a.is_generic then "!".data ++ rt2 else rt2
  match a.flag with
  | some f => f ++ ".".data ++ intRepr a.flag_index ++ "?".data ++ rt3
  | none => rt3

/-- `TLArg.default_value`: the Python literal chosen per field category
(`self.flag` is either `None` or a nonempty match group, so Python truthiness
is `isSome`). -/
def TLArg.default_value (a : TLArg) : List Char :=
  if a.flag.isSome then "None".data
  else if a.is_vector then "[]".data
  else if a.type = "int".data ∨ a.type = "long".data ∨ a.type = "int64".data
      ∨ a.type = "int32".data ∨ a.type = "int53".data then "0".data
  else if a.type = "bytes".data ∨ a.type = "int128".data ∨ a.type = "int256".data then
    "b\x27\x27".data
  else if a.type = "string".data then "\x27\x27".data
  else if a.type = "double".data then "0.0".data
  else if a.type = "Bool".data then "False".data
  else if a.type = "true".data then "True".data
  else "None".data

/-- The default-value categories named by the specification's table. -/
inductive DefaultCat where
  | absent
  | emptySeq
  | zeroInt
  | emptyBytes
  | emptyText
  | zeroFloat
  | boolFalse
  | boolTrue
deriving DecidableEq, Repr

/-- Modelled from the spec: "Default values by resolved type category:
numeric-like (`int`,`long`,`int32/53/64`) → 0; byte-like
(`bytes`,`int128`,`int256`) → empty byte string; `string` → empty text;
`double` → 0.0; boolean pseudo-type `Bool` → false, pseudo-type `true` →
true; vectors → empty sequence; anything else (nested object references) →
absent/null. A flagged field's default is always absent/null regardless of
its underlying category." -/
def spec_default_category (a : TLArg) : DefaultCat :=
  if a.flag.isSome then .absent
  else if a.is_vector then .emptySeq
  else if a.type = "int".data ∨ a.type = "long".data ∨ a.type = "int32".data
      ∨ a.type = "int53".data ∨ a.type = "int64".data then .zeroInt
  else if a.type = "bytes".data ∨ a.type = "int128".data ∨ a.type = "int256".data then
    .emptyBytes
  else if a.type = "string".data then .emptyText
  else if a.type = "double".data then .zeroFloat
  else if a.type = "Bool".data then .boolFalse
  else if a.type = "true".data then .boolTrue
  else .absent

/-- The Python literal the generator writes for each spec category. -/
def categoryLiteral : DefaultCat → List Char
  | .absent => "None".data
  | .emptySeq => "[]".data
  | .zeroInt => "0".data
  | .emptyBytes => "b\x27\x27".data
  | .emptyText => "\x27\x27".data
  | .zeroFloat => "0.0".data
  | .boolFalse => "False".data
  | .boolTrue => "True".data


/-! ### Generated-object equality (TLObject.__eq__, src/tl/tlobject.py)

`TLObject.__eq__` is `isinstance(o, type(self)) and self.to_dict() ==
o.to_dict()`.  The generated classes are leaves of the hierarchy (no
generated class subclasses another), so the `isinstance` test between two
generated instances is equality of their classes, modelled as equality of
the class discriminator name. -/

/-- Values occurring in the dict projection of a generated object. -/
inductive DictVal where
  | strV (v : List Char)
  | intV (v : Int)
  | bytesV (v : List Nat)
deriving DecidableEq, Repr

/-- A generated-object instance: its class (identified by the dotted
combinator name the generator derives the class and discriminator from) and
its declared fields in declaration order. -/
structure TLObjectInst where
  className : List Char
  fields : List (List Char × DictVal)
deriving DecidableEq, Repr

/-- Modelled from the spec: the generated `to_dict` (generator output, not
under src/) emits "a discriminator entry (dotted, lowercase combinator name)
followed by one entry per declared field in declaration order". -/
def to_dict (o : TLObjectInst) : List (List Char × DictVal) :=
  ("@type".data, .strV o.className) :: o.fields

/-- `TLObject.__eq__`: `isinstance(o, type(self)) and self.to_dict() ==
o.to_dict()`, with the `isinstance` test as class equality (see section
comment). -/
def tlobject_eq (a b : TLObjectInst) : Bool :=
  decide (a.className = b.className) && decide (to_dict a = to_dict b)


/-! ### Type-token grammar (for the canonical re-stringification claim)

The grammar of §4.2 type tokens, restricted to the combinations that
`real_type` itself can print (flag wrapping outermost, then generic, then
vector): `#`, a bare/boxed name, a vector of one, a generic `!`-wrapped core,
or a `FLAGS.N?`-wrapped core with `N` in canonical decimal. -/

/-- A core type: a (possibly dotted) name, or a boxed/bare vector of one. -/
inductive CoreTok where
  | plainName (base : List Char)
  | vectorOf (boxed : Bool) (base : List Char)

/-- Schema text of a core type. -/
def renderCore : CoreTok → List Char
  | .plainName b => b
  | .vectorOf true b => "Vector<".data ++ b ++ ">".data
  | .vectorOf false b => "vector<".data ++ b ++ ">".data

/-- A type token: `#`, a core, a generic core, or a flag-gated core. -/
inductive TypeTok where
  | hash
  | plainTok (core : CoreTok)
  | genericTok (core : CoreTok)
  | flaggedTok (flagName : List Char) (bit : Nat) (core : CoreTok)

/-- Schema text of a type token. -/
def renderTok : TypeTok → List Char
  | .hash => "#".data
  | .plainTok c => renderCore c
  | .genericTok c => "!".data ++ renderCore c
  | .flaggedTok f bit c => f ++ ".".data ++ natToChars bit ++ "?".data ++ renderCore c

/-- Characters legal in a (dotted) type name: word characters and dots. -/
def isBaseChar (c : Char) : Bool := isWordChar c || c == '.'

/-- A well-formed name: nonempty, name characters only, and a nonempty final
dotted component — `TLArg.__init__` indexes `[0]` into that component and
raises `IndexError` on a name ending in a dot. -/
def wfBase (b : List Char) : Prop :=
  b ≠ [] ∧ (∀ c ∈ b, isBaseChar c = true) ∧ lastComponent b ≠ []

/-- Well-formedness of a core type. -/
def wfCore : CoreTok → Prop
  | .plainName b => wfBase b
  | .vectorOf _ b => wfBase b

/-- Well-formedness of a type token: names well formed, flag names nonempty
runs of word characters. -/
def wfTok : TypeTok → Prop
  | .hash => True
  | .plainTok c => wfCore c
  | .genericTok c => wfCore c
  | .flaggedTok f _ c => f ≠ [] ∧ (∀ ch ∈ f, isWordChar ch = true) ∧ wfCore c

end TLSpec

namespace TLSpec

/-- `pySlice` at nonnegative endpoints reduces to clamped `take`/`drop`. -/
theorem pySlice_ofNat (l : List Nat) (a b : Nat) :
    pySlice l (a : Int) (b : Int) = (l.take (min l.length b)).drop (min l.length a) := by
  unfold pySlice pyBound
  rw [if_neg (by omega), if_neg (by omega), Int.toNat_natCast, Int.toNat_natCast]

/-- Slicing `[a, a + k)` inside the buffer extracts the `k` bytes at offset `a`. -/
theorem pySlice_middle (xs ys zs : List Nat) :
    pySlice (xs ++ ys ++ zs) (xs.length : Int) ((xs.length : Int) + (ys.length : Int)) = ys := by
  have hcast : ((xs.length : Int) + (ys.length : Int)) = ((xs.length + ys.length : Nat) : Int) := by
    push_cast; ring
  rw [hcast, pySlice_ofNat]
  have h1 : min (xs ++ ys ++ zs).length (xs.length + ys.length) = xs.length + ys.length := by
    rw [List.length_append, List.length_append]; omega
  have h2 : min (xs ++ ys ++ zs).length xs.length = xs.length := by
    rw [List.length_append, List.length_append]; omega
  rw [h1, h2]
  have h3 : (xs ++ ys ++ zs).take (xs.length + ys.length) = xs ++ ys := by
    have : (xs ++ ys).length = xs.length + ys.length := by simp
    rw [← this, List.take_left]
  rw [h3, List.drop_left]

/-- Claim C1: `serialize_bytes` produces exactly the two-branch
length-delimited layout: for `len(data) < 254` a 1-byte length, the payload
and zero padding making the total (counting the length byte) a multiple of 4;
for `len(data) >= 254` the byte `0xFE`, the 3-byte little-endian length, the
payload and zero padding making payload-plus-padding a multiple of 4; the
empty payload encodes to `[0, 0, 0, 0]` and a 300-byte payload encodes with
header `[0xFE, 44, 1, 0]` and no padding. -/
theorem claim_C1 (data : List Nat) :
    (data.length < 254 → ∃ p, p < 4 ∧
      serialize_bytes data = [data.length] ++ data ++ List.replicate p 0 ∧
      (1 + data.length + p) % 4 = 0)
    ∧ (254 ≤ data.length → ∃ p, p < 4 ∧
      serialize_bytes data
        = [254, data.length % 256, (data.length >>> 8) % 256, (data.length >>> 16) % 256]
            ++ data ++ List.replicate p 0 ∧
      (data.length + p) % 4 = 0)
    ∧ serialize_bytes [] = [0, 0, 0, 0]
    ∧ (data.length = 300 → serialize_bytes data = [254, 44, 1, 0] ++ data) := by
  refine ⟨?_, ?_, by decide, ?_⟩
  · intro h
    unfold serialize_bytes
    rw [if_pos h]
    by_cases hp : (data.length + 1) % 4 = 0
    · exact ⟨0, by omega, by simp [hp], by omega⟩
    · refine ⟨4 - (data.length + 1) % 4, by omega, by simp [hp], by omega⟩
  · intro h
    unfold serialize_bytes
    rw [if_neg (by omega)]
    by_cases hp : data.length % 4 = 0
    · exact ⟨0, by omega, by simp [hp], by omega⟩
    · refine ⟨4 - data.length % 4, by omega, by simp [hp], by omega⟩
  · intro h
    unfold serialize_bytes
    rw [if_neg (by omega), h]
    norm_num [Nat.shiftRight_eq_div_pow]

/-- Witness for C1 at concrete inputs: both branches instantiated. -/
theorem claim_C1_witness :
    (∃ p, p < 4 ∧
      serialize_bytes [7, 8] = [([7, 8] : List Nat).length] ++ [7, 8] ++ List.replicate p 0 ∧
      (1 + ([7, 8] : List Nat).length + p) % 4 = 0)
    ∧ serialize_bytes (List.replicate 300 7) = [254, 44, 1, 0] ++ List.replicate 300 7 :=
  ⟨(claim_C1 [7, 8]).1 (by norm_num),
   (claim_C1 (List.replicate 300 7)).2.2.2 (by rw [List.length_replicate])⟩

/-- `read` with `n` bytes available: returns the `n` bytes at the cursor,
advances by `n` and records the chunk in `_last`. -/
theorem read_ok (stream : List Nat) (pos : Int) (last : Option (List Nat)) (n : Nat)
    (h0 : 0 ≤ pos) (h : pos.toNat + n ≤ stream.length) :
    read ⟨stream, pos, last⟩ (n : Int) =
      (.ok ((stream.drop pos.toNat).take n),
       ⟨stream, pos + n, some ((stream.drop pos.toNat).take n)⟩) := by
  obtain ⟨p, rfl⟩ : ∃ p : Nat, pos = (p : Int) := ⟨pos.toNat, (Int.toNat_of_nonneg h0).symm⟩
  simp only [Int.toNat_natCast] at h ⊢
  unfold read
  rw [if_pos (by omega)]
  have hsum : (p : Int) + (n : Int) = ((p + n : Nat) : Int) := by omega
  have hslice : pySlice stream (p : Int) ((p : Int) + (n : Int)) = (stream.drop p).take n := by
    rw [hsum, pySlice_ofNat]
    rw [min_eq_right h, min_eq_right (by omega)]
    rw [List.drop_take]
    congr 1
    omega
  rw [hslice]
  have hlen : ((stream.drop p).take n).length = n := by
    rw [List.length_take, List.length_drop]
    omega
  rw [if_neg (by simp [hlen])]

/-- `read` with fewer than the requested `n > 0` bytes available: raises
`BufferError` carrying the requested length, the obtained length, the partial
chunk and `_last`; the position is still advanced and `_last` unchanged. -/
theorem read_err (stream : List Nat) (pos : Int) (last : Option (List Nat)) (n : Nat)
    (h0 : 0 ≤ pos) (hn : 0 < n) (h : stream.length < pos.toNat + n) :
    read ⟨stream, pos, last⟩ (n : Int) =
      (.error (.bufferError n (stream.length - pos.toNat) (stream.drop pos.toNat) last),
       ⟨stream, pos + n, last⟩) := by
  obtain ⟨p, rfl⟩ : ∃ p : Nat, pos = (p : Int) := ⟨pos.toNat, (Int.toNat_of_nonneg h0).symm⟩
  simp only [Int.toNat_natCast] at h ⊢
  unfold read
  rw [if_pos (by omega)]
  have hsum : (p : Int) + (n : Int) = ((p + n : Nat) : Int) := by omega
  have hslice : pySlice stream (p : Int) ((p : Int) + (n : Int)) = stream.drop p := by
    rw [hsum, pySlice_ofNat]
    have h1 : min stream.length (p + n) = stream.length := min_eq_left (by omega)
    rw [h1, List.take_length]
    rcases le_total p stream.length with hc | hc
    · rw [min_eq_right hc]
    · rw [min_eq_left hc, List.drop_eq_nil_of_le hc, List.drop_eq_nil_of_le (le_refl _)]
  rw [hslice]
  have hlen : (stream.drop p).length = stream.length - p := List.length_drop p stream
  rw [if_pos (by rw [hlen, Int.toNat_natCast]; omega), hlen]
  simp

/-- Claim C10: with `n` bytes available at the cursor, `read_bytes n` returns
those `n` bytes in reversed order and advances by `n`, while `read n` returns
the same bytes in buffer order. -/
theorem claim_C10 (stream : List Nat) (pos : Int) (last : Option (List Nat)) (n : Nat)
    (h0 : 0 ≤ pos) (h : pos.toNat + n ≤ stream.length) :
    read_bytes ⟨stream, pos, last⟩ (n : Int) =
      (.ok ((stream.drop pos.toNat).take n).reverse,
       ⟨stream, pos + n, some ((stream.drop pos.toNat).take n)⟩)
    ∧ read ⟨stream, pos, last⟩ (n : Int) =
      (.ok ((stream.drop pos.toNat).take n),
       ⟨stream, pos + n, some ((stream.drop pos.toNat).take n)⟩) := by
  have hr := read_ok stream pos last n h0 h
  refine ⟨?_, hr⟩
  unfold read_bytes
  rw [hr]

/-- Witness for C10: reading 3 bytes of a 5-byte buffer at position 1. -/
theorem claim_C10_witness :
    read_bytes ⟨[1, 2, 3, 4, 5], 1, none⟩ 3 = (.ok [4, 3, 2], ⟨[1, 2, 3, 4, 5], 4, some [2, 3, 4]⟩)
    ∧ read ⟨[1, 2, 3, 4, 5], 1, none⟩ 3 = (.ok [2, 3, 4], ⟨[1, 2, 3, 4, 5], 4, some [2, 3, 4]⟩) :=
  claim_C10 [1, 2, 3, 4, 5] 1 none 3 (by decide) (by decide)

/-- A nonnegative offset is left unchanged by `struct` normalization. -/
theorem structNormOff_of_nonneg (n : Nat) (off : Int) (h0 : 0 ≤ off) :
    structNormOff n off = off :=
  if_neg (by omega)

/-- `structOffset` at a nonnegative in-bounds offset. -/
theorem structOffset_some (width n : Nat) (off : Int)
    (h0 : 0 ≤ off) (h : off.toNat + width ≤ n) :
    structOffset width n off = some off.toNat := by
  unfold structOffset
  rw [structNormOff_of_nonneg n off h0]
  exact if_pos ⟨h0, h⟩

/-- `structOffset` at a nonnegative offset with too few bytes. -/
theorem structOffset_none (width n : Nat) (off : Int)
    (h0 : 0 ≤ off) (h : n < off.toNat + width) :
    structOffset width n off = none := by
  unfold structOffset
  rw [structNormOff_of_nonneg n off h0]
  exact if_neg (by omega)

/-- `read_int` with 4 bytes available returns the little-endian value of the
4 bytes at the cursor and advances by 4. -/
theorem read_int_ok (stream : List Nat) (pos : Int) (last : Option (List Nat)) (signed : Bool)
    (h0 : 0 ≤ pos) (h : pos.toNat + 4 ≤ stream.length) :
    read_int ⟨stream, pos, last⟩ signed =
      (.ok (if signed then toSigned 4 (leVal ((stream.drop pos.toNat).take 4))
            else (leVal ((stream.drop pos.toNat).take 4) : Int)),
       ⟨stream, pos + 4, last⟩) := by
  unfold read_int
  rw [structOffset_some 4 stream.length pos h0 h]

/-- `read_byte` with a byte available returns the byte at the cursor and
advances by 1. -/
theorem read_byte_ok (stream : List Nat) (pos : Int) (last : Option (List Nat))
    (h0 : 0 ≤ pos) (h : pos.toNat + 1 ≤ stream.length) :
    read_byte ⟨stream, pos, last⟩ = (.ok (stream.getD pos.toNat 0), ⟨stream, pos + 1, last⟩) := by
  unfold read_byte
  rw [structOffset_some 1 stream.length pos h0 h]

/-- Counterexample to claim C3: on a 3-byte buffer (one byte fewer than the 4
a `read_int` needs) `read_int` raises the `struct.error` of
`struct.unpack_from` — which does not carry the last successfully read
chunk — and not the out-of-data `BufferError` described by the claim. -/
theorem claim_C3_counterexample :
    read_int ⟨[0, 0, 0], 0, some [9]⟩ true
      = (.error (.structError 4 0 3), ⟨[0, 0, 0], 0, some [9]⟩)
    ∧ is_out_of_data (.structError 4 0 3) = false := by
  constructor
  · rfl
  · rfl

/-- Claim C3 as amended: with fewer than 4 bytes remaining, `read_int` fails
with a `struct.error` reporting the requested width 4, the offset and the
buffer size (but no last-read chunk), leaving the reader unchanged; the
out-of-data error reporting requested length, available length and last chunk
is the one `read` raises on the same state. -/
theorem claim_C3 (stream : List Nat) (pos : Int) (last : Option (List Nat)) (signed : Bool)
    (h0 : 0 ≤ pos) (h : stream.length < pos.toNat + 4) :
    read_int ⟨stream, pos, last⟩ signed
      = (.error (.structError 4 pos stream.length), ⟨stream, pos, last⟩)
    ∧ read ⟨stream, pos, last⟩ 4
      = (.error (.bufferError 4 (stream.length - pos.toNat) (stream.drop pos.toNat) last),
         ⟨stream, pos + 4, last⟩) := by
  constructor
  · unfold read_int
    rw [structOffset_none 4 stream.length pos h0 h]
  · exact read_err stream pos last 4 h0 (by omega) h

/-- Witness for the amended C3 on a concrete 3-byte buffer. -/
theorem claim_C3_witness :
    read_int ⟨[5, 6, 7], 0, none⟩ true = (.error (.structError 4 0 3), ⟨[5, 6, 7], 0, none⟩)
    ∧ read ⟨[5, 6, 7], 0, none⟩ 4
      = (.error (.bufferError 4 3 [5, 6, 7] none), ⟨[5, 6, 7], 4, none⟩) :=
  claim_C3 [5, 6, 7] 0 none true (by decide) (by decide)

/-- Claim C5: with at least 4 bytes remaining, `tgread_bool` returns `true`
on the `boolTrue` sentinel `0x997275b5`, `false` on the `boolFalse` sentinel
`0xbc799737`, and raises the invalid-boolean error carrying the value for any
other 4-byte little-endian unsigned value; the position advances by exactly 4
in all three cases. -/
theorem claim_C5 (stream : List Nat) (pos : Int) (last : Option (List Nat))
    (h0 : 0 ≤ pos) (h : pos.toNat + 4 ≤ stream.length) :
    (tgread_bool ⟨stream, pos, last⟩).2.position = pos + 4
    ∧ (leVal ((stream.drop pos.toNat).take 4) = 0x997275b5 →
        (tgread_bool ⟨stream, pos, last⟩).1 = .ok true)
    ∧ (leVal ((stream.drop pos.toNat).take 4) = 0xbc799737 →
        (tgread_bool ⟨stream, pos, last⟩).1 = .ok false)
    ∧ (leVal ((stream.drop pos.toNat).take 4) ≠ 0x997275b5 →
       leVal ((stream.drop pos.toNat).take 4) ≠ 0xbc799737 →
        (tgread_bool ⟨stream, pos, last⟩).1
          = .error (.invalidBool (leVal ((stream.drop pos.toNat).take 4)))) := by
  have hread := read_int_ok stream pos last false h0 h
  rw [if_neg (by simp)] at hread
  unfold tgread_bool
  rw [hread]
  dsimp only
  set u := leVal ((stream.drop pos.toNat).take 4) with hu
  refine ⟨?_, ?_, ?_, ?_⟩
  · by_cases h1 : (u : Int) = 0x997275b5
    · rw [if_pos h1]
    · rw [if_neg h1]
      by_cases h2 : (u : Int) = 0xbc799737
      · rw [if_pos h2]
      · rw [if_neg h2]
  · intro hv
    rw [if_pos (by exact_mod_cast congrArg (Nat.cast : Nat → Int) hv)]
  · intro hv
    have h1 : (u : Int) ≠ 0x997275b5 := by omega
    rw [if_neg h1, if_pos (by exact_mod_cast congrArg (Nat.cast : Nat → Int) hv)]
  · intro hv1 hv2
    have h1 : (u : Int) ≠ 0x997275b5 := by omega
    have h2 : (u : Int) ≠ 0xbc799737 := by omega
    rw [if_neg h1, if_neg h2]

/-- Witness for C5: the `boolTrue` sentinel bytes decode to `true` with the
cursor at 4, and a non-sentinel word raises the invalid-boolean error. -/
theorem claim_C5_witness :
    (tgread_bool ⟨[0xb5, 0x75, 0x72, 0x99], 0, none⟩).2.position = 0 + 4
    ∧ (leVal ((([0xb5, 0x75, 0x72, 0x99] : List Nat).drop (0 : Int).toNat).take 4) = 0x997275b5 →
        (tgread_bool ⟨[0xb5, 0x75, 0x72, 0x99], 0, none⟩).1 = .ok true) :=
  ⟨(claim_C5 [0xb5, 0x75, 0x72, 0x99] 0 none (by decide) (by decide)).1,
   (claim_C5 [0xb5, 0x75, 0x72, 0x99] 0 none (by decide) (by decide)).2.1⟩

/-- `read` with negative length returns everything from the cursor to the end
of the buffer, never raising. -/
theorem read_all (stream : List Nat) (pos : Int) (last : Option (List Nat))
    (h0 : 0 ≤ pos) (h : pos.toNat ≤ stream.length) :
    read ⟨stream, pos, last⟩ (-1) =
      (.ok (stream.drop pos.toNat),
       ⟨stream, pos + ((stream.length - pos.toNat : Nat) : Int), some (stream.drop pos.toNat)⟩) := by
  obtain ⟨p, rfl⟩ : ∃ p : Nat, pos = (p : Int) := ⟨pos.toNat, (Int.toNat_of_nonneg h0).symm⟩
  simp only [Int.toNat_natCast] at h ⊢
  unfold read
  rw [if_neg (by omega)]
  have hslice : pySlice stream (p : Int) (stream.length : Int) = stream.drop p := by
    rw [pySlice_ofNat, min_self, List.take_length, min_eq_right h]
  rw [hslice]
  dsimp only
  rw [List.length_drop]

/-- Claim C4: when the 4-byte constructor id is neither registered nor one of
the boolean sentinels nor the vector tag, `tgread_object` rewinds the 4
consumed bytes (the final position equals the position before the id was
read) and raises the unknown-constructor error carrying that exact id and the
bytes remaining from the rewound position. -/
theorem claim_C4 (reg : TLRegistry) (stream : List Nat) (pos : Int)
    (last : Option (List Nat)) (fuel : Nat)
    (h0 : 0 ≤ pos) (h : pos.toNat + 4 ≤ stream.length)
    (hreg : reg ((leVal ((stream.drop pos.toNat).take 4) : Nat) : Int) = none)
    (ht : ((leVal ((stream.drop pos.toNat).take 4) : Nat) : Int) ≠ 0x997275b5)
    (hf : ((leVal ((stream.drop pos.toNat).take 4) : Nat) : Int) ≠ 0xbc799737)
    (hv : ((leVal ((stream.drop pos.toNat).take 4) : Nat) : Int) ≠ 0x1cb5c415) :
    tgread_object reg (fuel + 1) ⟨stream, pos, last⟩ =
      (.error (.unknownConstructor ((leVal ((stream.drop pos.toNat).take 4) : Nat) : Int)
                 (stream.drop pos.toNat)),
       ⟨stream, pos, some (stream.drop pos.toNat)⟩) := by
  have hread := read_int_ok stream pos last false h0 h
  rw [if_neg (by simp)] at hread
  simp only [tgread_object]
  rw [hread]
  dsimp only
  rw [hreg]
  rw [if_neg ht, if_neg hf, if_neg hv]
  have hseek : seek ⟨stream, pos + 4, last⟩ (-4) = ⟨stream, pos, last⟩ := by
    unfold seek
    norm_num
  rw [hseek, read_all stream pos last h0 (by omega)]

/-- Witness for C4: id 1 over an empty registry. -/
theorem claim_C4_witness :
    tgread_object (fun _ => none) 1 ⟨[1, 0, 0, 0], 0, none⟩ =
      (.error (.unknownConstructor 1 [1, 0, 0, 0]), ⟨[1, 0, 0, 0], 0, some [1, 0, 0, 0]⟩) := by
  have := claim_C4 (fun _ => none) [1, 0, 0, 0] 0 none 0 (by decide) (by decide)
    rfl (by decide) (by decide) (by decide)
  simpa using this

/-- `read_byte` never moves the cursor backwards. -/
theorem pos_le_read_byte (r : BinaryReader) : r.position ≤ (read_byte r).2.position := by
  unfold read_byte
  rcases structOffset 1 r.stream.length r.position with _ | o
  · exact le_refl _
  · dsimp only
    omega

/-- `read_int` never moves the cursor backwards. -/
theorem pos_le_read_int (r : BinaryReader) (signed : Bool) :
    r.position ≤ (read_int r signed).2.position := by
  unfold read_int
  rcases structOffset 4 r.stream.length r.position with _ | o
  · exact le_refl _
  · dsimp only
    omega

/-- `read_long` never moves the cursor backwards. -/
theorem pos_le_read_long (r : BinaryReader) (signed : Bool) :
    r.position ≤ (read_long r signed).2.position := by
  unfold read_long
  rcases structOffset 8 r.stream.length r.position with _ | o
  · exact le_refl _
  · dsimp only
    omega

/-- `read` never moves the cursor backwards, for any length argument. -/
theorem pos_le_read (r : BinaryReader) (length : Int) :
    r.position ≤ (read r length).2.position := by
  unfold read
  by_cases hl : 0 ≤ length
  · rw [if_pos hl]
    dsimp only
    split_ifs <;> dsimp only <;> omega
  · rw [if_neg hl]
    dsimp only
    omega

/-- `read_bytes` never moves the cursor backwards. -/
theorem pos_le_read_bytes (r : BinaryReader) (length : Int) :
    r.position ≤ (read_bytes r length).2.position := by
  have hr := pos_le_read r length
  unfold read_bytes
  rcases h : read r length with ⟨e | v, r'⟩ <;> rw [h] at hr <;> exact hr

/-- `read_large_int` never moves the cursor backwards. -/
theorem pos_le_read_large_int (r : BinaryReader) (bits : Nat) (signed : Bool) :
    r.position ≤ (read_large_int r bits signed).2.position := by
  have hr := pos_le_read r ((bits / 8 : Nat) : Int)
  unfold read_large_int
  rcases h : read r ((bits / 8 : Nat) : Int) with ⟨e | v, r'⟩ <;> rw [h] at hr <;> exact hr

/-- The shared payload phase of `tgread_bytes` never moves the cursor
backwards. -/
theorem pos_le_tgread_bytes_payload (r : BinaryReader) (length padding : Nat) :
    r.position ≤ (tgread_bytes_payload r length padding).2.position := by
  have h1 := pos_le_read r (length : Int)
  unfold tgread_bytes_payload
  rcases hr : read r (length : Int) with ⟨e | d, r'⟩ <;> rw [hr] at h1
  · exact h1
  · dsimp only
    split_ifs
    · have h2 := pos_le_read r' ((4 - padding : Nat) : Int)
      rcases hr2 : read r' ((4 - padding : Nat) : Int) with ⟨e2 | d2, r''⟩ <;>
        rw [hr2] at h2 <;> exact le_trans h1 h2
    · exact h1

/-- `tgread_bytes` never moves the cursor backwards. -/
theorem pos_le_tgread_bytes (r : BinaryReader) : r.position ≤ (tgread_bytes r).2.position := by
  have h1 := pos_le_read_byte r
  unfold tgread_bytes
  rcases hr : read_byte r with ⟨e | b1, r1⟩ <;> rw [hr] at h1
  · exact h1
  · dsimp only
    split_ifs
    · have h2 := pos_le_read_byte r1
      rcases hr2 : read_byte r1 with ⟨e | b2, r2⟩ <;> rw [hr2] at h2
      · exact le_trans h1 h2
      · dsimp only
        have h3 := pos_le_read_byte r2
        rcases hr3 : read_byte r2 with ⟨e | b3, r3⟩ <;> rw [hr3] at h3
        · exact le_trans h1 (le_trans h2 h3)
        · dsimp only
          have h4 := pos_le_read_byte r3
          rcases hr4 : read_byte r3 with ⟨e | b4, r4⟩ <;> rw [hr4] at h4
          · exact le_trans h1 (le_trans h2 (le_trans h3 h4))
          · dsimp only
            exact le_trans h1 (le_trans h2 (le_trans h3
              (le_trans h4 (pos_le_tgread_bytes_payload r4 _ _))))
    · exact le_trans h1 (pos_le_tgread_bytes_payload r1 _ _)

/-- `tgread_bool` never moves the cursor backwards. -/
theorem pos_le_tgread_bool (r : BinaryReader) : r.position ≤ (tgread_bool r).2.position := by
  have h1 := pos_le_read_int r false
  unfold tgread_bool
  rcases hr : read_int r false with ⟨e | v, r1⟩ <;> rw [hr] at h1
  · exact h1
  · dsimp only
    split_ifs <;> exact h1

/-- Counterexample to claim C8: `seek` is part of the reader's public
interface and a negative offset moves the position backwards — from 4 to 0
here. -/
theorem claim_C8_counterexample :
    (seek ⟨[0, 1, 2, 3], 4, none⟩ (-4)).position = 0
    ∧ (seek ⟨[0, 1, 2, 3], 4, none⟩ (-4)).position < 4 := by
  constructor <;> decide

/-- Claim C8 as amended: every read operation of the reader's interface
(`read_byte`, `read_int`, `read_long`, `read`, `read_bytes`,
`read_large_int`, `tgread_bytes`, `tgread_bool`) leaves the position at least
where it was, even when it raises, and `close` leaves it unchanged; `seek`
with a negative offset (and the rewind inside `tgread_object`'s
unknown-constructor path) are the operations that move it back. -/
theorem claim_C8 :
    (∀ r : BinaryReader, r.position ≤ (read_byte r).2.position)
    ∧ (∀ (r : BinaryReader) (signed : Bool), r.position ≤ (read_int r signed).2.position)
    ∧ (∀ (r : BinaryReader) (signed : Bool), r.position ≤ (read_long r signed).2.position)
    ∧ (∀ (r : BinaryReader) (length : Int), r.position ≤ (read r length).2.position)
    ∧ (∀ (r : BinaryReader) (length : Int), r.position ≤ (read_bytes r length).2.position)
    ∧ (∀ (r : BinaryReader) (bits : Nat) (signed : Bool),
        r.position ≤ (read_large_int r bits signed).2.position)
    ∧ (∀ r : BinaryReader, r.position ≤ (tgread_bytes r).2.position)
    ∧ (∀ r : BinaryReader, r.position ≤ (tgread_bool r).2.position)
    ∧ (∀ r : BinaryReader, (close r).position = r.position) :=
  ⟨pos_le_read_byte, pos_le_read_int, pos_le_read_long, pos_le_read, pos_le_read_bytes,
   pos_le_read_large_int, pos_le_tgread_bytes, pos_le_tgread_bool, fun _ => rfl⟩

/-- Or-ing a value below `2 ^ n` with a value shifted left by `n` is plain
addition: the two operands occupy disjoint bit ranges. -/
theorem lor_shiftLeft_eq_add : ∀ (n a b : Nat), a < 2 ^ n → a ||| (b <<< n) = a + b * 2 ^ n := by
  intro n
  induction n with
  | zero =>
    intro a b ha
    have : a = 0 := by omega
    subst this
    simp [Nat.shiftLeft_zero]
  | succ n ih =>
    intro a b ha
    have hdiv : a / 2 < 2 ^ n := by
      rw [pow_succ] at ha
      exact Nat.div_lt_of_lt_mul (by omega)
    have hshift : b <<< (n + 1) = Nat.bit false (b <<< n) := by
      rw [Nat.bit_val]
      rw [Nat.shiftLeft_eq, Nat.shiftLeft_eq]
      simp [pow_succ]
      ring
    have ha' : a = Nat.bit a.bodd a.div2 := (Nat.bit_decomp a).symm
    calc a ||| (b <<< (n + 1)) = Nat.bit a.bodd a.div2 ||| Nat.bit false (b <<< n) := by
          rw [← ha', ← hshift]
      _ = Nat.bit (a.bodd || false) (a.div2 ||| (b <<< n)) :=
          Nat.lor_bit a.bodd a.div2 false (b <<< n)
      _ = Nat.bit a.bodd (a / 2 + b * 2 ^ n) := by
          rw [Bool.or_false, Nat.div2_val, ih (a / 2) b hdiv]
      _ = a + b * 2 ^ (n + 1) := by
          rw [Nat.bit_val, pow_succ, ← Nat.mul_assoc]
          generalize b * 2 ^ n = t
          have hm : a % 2 = a.bodd.toNat := by
            rw [Nat.mod_two_of_bodd]
          have hd := Nat.div_add_mod a 2
          omega

/-- Reassembling the three header bytes of the long branch of
`serialize_bytes` with the shifts and ors of `tgread_bytes` recovers the
length, provided it fits in 3 bytes. -/
theorem header_bytes_reassemble (L : Nat) (h : L < 2 ^ 24) :
    (L % 256) ||| (((L >>> 8) % 256) <<< 8) ||| (((L >>> 16) % 256) <<< 16) = L := by
  rw [Nat.shiftRight_eq_div_pow, Nat.shiftRight_eq_div_pow]
  have h8 : (2 : Nat) ^ 8 = 256 := by norm_num
  have h16 : (2 : Nat) ^ 16 = 65536 := by norm_num
  rw [h8, h16]
  rw [lor_shiftLeft_eq_add 8 _ _ (by omega)]
  rw [lor_shiftLeft_eq_add 16 _ _ (by rw [h16]; omega)]
  rw [h8, h16]
  have h24 : (2 : Nat) ^ 24 = 16777216 := by norm_num
  rw [h24] at h
  omega

/-- `serialize_bytes` on a short payload, with the padding count exposed. -/
theorem serialize_short_eq (data : List Nat) (h : data.length < 254) :
    serialize_bytes data = [data.length] ++ data ++
      List.replicate
        (if (data.length + 1) % 4 ≠ 0 then 4 - (data.length + 1) % 4 else (data.length + 1) % 4)
        0 := by
  unfold serialize_bytes
  rw [if_pos h]

/-- `serialize_bytes` on a long payload, with the padding count exposed. -/
theorem serialize_long_eq (data : List Nat) (h : 254 ≤ data.length) :
    serialize_bytes data
      = [254, data.length % 256, (data.length >>> 8) % 256, (data.length >>> 16) % 256]
          ++ data ++
        List.replicate
          (if data.length % 4 ≠ 0 then 4 - data.length % 4 else data.length % 4) 0 := by
  unfold serialize_bytes
  rw [if_neg (by omega)]

/-- Extracting the middle segment of a three-part buffer. -/
theorem drop_take_middle (xs ys zs : List Nat) :
    ((xs ++ ys ++ zs).drop xs.length).take ys.length = ys := by
  rw [List.append_assoc, List.drop_left, List.take_left]

/-- The payload phase of `tgread_bytes` over a buffer laid out as
header ++ payload ++ padding, positioned right after the header, with the
padding of the size the padding argument demands: returns the payload and
finishes at the end of the buffer. -/
theorem tgread_bytes_payload_append (pre data padL : List Nat) (last : Option (List Nat))
    (padding : Nat)
    (hcount : padL.length = if 0 < padding then 4 - padding else 0) :
    tgread_bytes_payload ⟨pre ++ data ++ padL, (pre.length : Int), last⟩ data.length padding
      = (.ok data,
         ⟨pre ++ data ++ padL, ((pre ++ data ++ padL).length : Int),
          some (if 0 < padding then padL else data)⟩) := by
  have hlen_total : (pre ++ data ++ padL).length = pre.length + data.length + padL.length := by
    rw [List.length_append, List.length_append]
  have h1 : read ⟨pre ++ data ++ padL, (pre.length : Int), last⟩ (data.length : Int)
      = (.ok data,
         ⟨pre ++ data ++ padL, (pre.length : Int) + (data.length : Int), some data⟩) := by
    have hr := read_ok (pre ++ data ++ padL) (pre.length : Int) last data.length
      (by omega) (by rw [Int.toNat_natCast]; omega)
    rw [Int.toNat_natCast, drop_take_middle] at hr
    exact hr
  unfold tgread_bytes_payload
  rw [h1]
  dsimp only
  by_cases hp : 0 < padding
  · rw [if_pos hp] at hcount
    simp only [if_pos hp]
    have hsum : (pre.length : Int) + (data.length : Int)
        = ((pre.length + data.length : Nat) : Int) := by push_cast; ring
    have h2 : read ⟨pre ++ data ++ padL, (pre.length : Int) + (data.length : Int), some data⟩
        ((4 - padding : Nat) : Int)
        = (.ok padL,
           ⟨pre ++ data ++ padL,
            ((pre.length : Int) + (data.length : Int)) + ((4 - padding : Nat) : Int),
            some padL⟩) := by
      have hr := read_ok (pre ++ data ++ padL) ((pre.length + data.length : Nat) : Int)
        (some data) (4 - padding) (by omega) (by rw [Int.toNat_natCast]; omega)
      rw [Int.toNat_natCast] at hr
      have hmid : ((pre ++ data ++ padL).drop (pre.length + data.length)).take (4 - padding)
          = padL := by
        have hassoc : pre ++ data ++ padL = (pre ++ data) ++ padL ++ [] := by simp
        rw [hassoc, ← hcount]
        have hxs : (pre ++ data).length = pre.length + data.length := by
          rw [List.length_append]
        rw [← hxs]
        exact drop_take_middle (pre ++ data) padL []
      rw [hmid] at hr
      rw [hsum]
      exact hr
    rw [h2]
    dsimp only
    refine congrArg _ ?_
    have hposeq : ((pre ++ data ++ padL).length : Int)
        = ((pre.length : Int) + (data.length : Int)) + ((4 - padding : Nat) : Int) := by
      rw [hlen_total, hcount]
      push_cast
      ring
    rw [hposeq]
  · rw [if_neg hp] at hcount
    simp only [if_neg hp]
    refine congrArg _ ?_
    have hposeq : ((pre ++ data ++ padL).length : Int)
        = (pre.length : Int) + (data.length : Int) := by
      rw [hlen_total, hcount]
      push_cast
      ring
    rw [hposeq]

/-- Decode-of-encode for `tgread_bytes` over `serialize_bytes`, for payloads
whose length fits the 3-byte length field. -/
theorem tgread_serialize_roundtrip (data : List Nat) (hlt : data.length < 2 ^ 24) :
    (tgread_bytes (mkReader (serialize_bytes data))).1 = .ok data
    ∧ (tgread_bytes (mkReader (serialize_bytes data))).2.position
        = ((serialize_bytes data).length : Int) := by
  by_cases h : data.length < 254
  · rw [serialize_short_eq data h]
    set p := if (data.length + 1) % 4 ≠ 0 then 4 - (data.length + 1) % 4
             else (data.length + 1) % 4 with hpdef
    set buf := [data.length] ++ data ++ List.replicate p 0 with hbuf
    have hblen : 1 ≤ buf.length := by
      rw [hbuf]
      simp
    have hb : read_byte ⟨buf, 0, none⟩ = (.ok data.length, ⟨buf, 0 + 1, none⟩) := by
      have hr := read_byte_ok buf 0 none (by omega) (by omega)
      have hget : buf.getD (0 : Int).toNat 0 = data.length := rfl
      rw [hget] at hr
      exact hr
    unfold tgread_bytes mkReader
    rw [hb]
    dsimp only
    rw [if_neg (by omega)]
    have hpos : (0 : Int) + 1 = (([data.length] : List Nat).length : Int) := by norm_num
    rw [hpos]
    have happ := tgread_bytes_payload_append [data.length] data (List.replicate p 0) none
      ((data.length + 1) % 4)
      (by
        rw [List.length_replicate, hpdef]
        split_ifs <;> omega)
    rw [happ]
    exact ⟨rfl, rfl⟩
  · rw [serialize_long_eq data (by omega)]
    set b0 := data.length % 256 with hb0
    set b1 := (data.length >>> 8) % 256 with hb1
    set b2 := (data.length >>> 16) % 256 with hb2
    set p := if data.length % 4 ≠ 0 then 4 - data.length % 4 else data.length % 4 with hpdef
    set buf := [254, b0, b1, b2] ++ data ++ List.replicate p 0 with hbuf
    have hblen : 4 ≤ buf.length := by
      rw [hbuf]
      simp
    have hrb0 : read_byte ⟨buf, 0, none⟩ = (.ok 254, ⟨buf, 0 + 1, none⟩) := by
      have hr := read_byte_ok buf 0 none (by omega) (by omega)
      have hget : buf.getD (0 : Int).toNat 0 = 254 := rfl
      rw [hget] at hr
      exact hr
    have hrb1 : read_byte ⟨buf, 0 + 1, none⟩ = (.ok b0, ⟨buf, 0 + 1 + 1, none⟩) := by
      have hr := read_byte_ok buf (0 + 1) none (by omega) (by norm_num; omega)
      have hget : buf.getD ((0 : Int) + 1).toNat 0 = b0 := rfl
      rw [hget] at hr
      exact hr
    have hrb2 : read_byte ⟨buf, 0 + 1 + 1, none⟩ = (.ok b1, ⟨buf, 0 + 1 + 1 + 1, none⟩) := by
      have hr := read_byte_ok buf (0 + 1 + 1) none (by omega) (by norm_num; omega)
      have hget : buf.getD ((0 : Int) + 1 + 1).toNat 0 = b1 := rfl
      rw [hget] at hr
      exact hr
    have hrb3 : read_byte ⟨buf, 0 + 1 + 1 + 1, none⟩
        = (.ok b2, ⟨buf, 0 + 1 + 1 + 1 + 1, none⟩) := by
      have hr := read_byte_ok buf (0 + 1 + 1 + 1) none (by omega) (by norm_num; omega)
      have hget : buf.getD ((0 : Int) + 1 + 1 + 1).toNat 0 = b2 := rfl
      rw [hget] at hr
      exact hr
    unfold tgread_bytes mkReader
    rw [hrb0]
    dsimp only
    rw [if_pos rfl, hrb1]
    dsimp only
    rw [hrb2]
    dsimp only
    rw [hrb3]
    dsimp only
    have hre : b0 ||| (b1 <<< 8) ||| (b2 <<< 16) = data.length :=
      header_bytes_reassemble data.length hlt
    rw [hre]
    have hpos : (0 : Int) + 1 + 1 + 1 + 1 = (([254, b0, b1, b2] : List Nat).length : Int) := by
      norm_num
    rw [hpos]
    have happ := tgread_bytes_payload_append [254, b0, b1, b2] data (List.replicate p 0) none
      (data.length % 4)
      (by
        rw [List.length_replicate, hpdef]
        split_ifs <;> omega)
    rw [happ]
    exact ⟨rfl, rfl⟩

/-- Claim C2 as amended: for every payload whose length fits the 3-byte
length field (`len < 2 ^ 24`), `tgread_bytes` over `serialize_bytes data`
returns `data` and consumes the whole encoding, and `serialize_bytes` applied
to the value decoded from a well-formed buffer (one produced by
`serialize_bytes` from such a payload) reproduces the buffer byte-for-byte. -/
theorem claim_C2 :
    (∀ data : List Nat, data.length < 2 ^ 24 →
      (tgread_bytes (mkReader (serialize_bytes data))).1 = .ok data
      ∧ (tgread_bytes (mkReader (serialize_bytes data))).2.position
          = ((serialize_bytes data).length : Int))
    ∧ (∀ buf data : List Nat, data.length < 2 ^ 24 → buf = serialize_bytes data →
        serialize_bytes (tgDecodeVal buf) = buf) := by
  refine ⟨fun data hlt => tgread_serialize_roundtrip data hlt, ?_⟩
  intro buf data hlt hbuf
  subst hbuf
  unfold tgDecodeVal
  rw [(tgread_serialize_roundtrip data hlt).1]

/-- Witness for the amended C2 on the payload `[9, 9, 9]`. -/
theorem claim_C2_witness :
    ((tgread_bytes (mkReader (serialize_bytes [9, 9, 9]))).1 = .ok [9, 9, 9]
     ∧ (tgread_bytes (mkReader (serialize_bytes [9, 9, 9]))).2.position
         = ((serialize_bytes [9, 9, 9]).length : Int))
    ∧ serialize_bytes (tgDecodeVal (serialize_bytes [9, 9, 9])) = serialize_bytes [9, 9, 9] :=
  ⟨claim_C2.1 [9, 9, 9] (by norm_num),
   claim_C2.2 (serialize_bytes [9, 9, 9]) [9, 9, 9] (by norm_num) rfl⟩

/-- Any payload of length exactly `2 ^ 24` decodes to the empty byte string
after encoding: the 3-byte length header truncates `2 ^ 24` to 0. -/
theorem tgread_serialize_truncates (data : List Nat) (hlen : data.length = 2 ^ 24) :
    (tgread_bytes (mkReader (serialize_bytes data))).1 = .ok ([] : List Nat) := by
  have henc : serialize_bytes data = [254, 0, 0, 0] ++ data ++ List.replicate 0 0 := by
    have h := serialize_long_eq data (by rw [hlen]; norm_num)
    rw [hlen] at h
    have e1 : 2 ^ 24 % 256 = 0 := by norm_num
    have e2 : ((2 : Nat) ^ 24 >>> 8) % 256 = 0 := by
      rw [Nat.shiftRight_eq_div_pow]
      norm_num
    have e3 : ((2 : Nat) ^ 24 >>> 16) % 256 = 0 := by
      rw [Nat.shiftRight_eq_div_pow]
      norm_num
    have e4 : ¬((2 : Nat) ^ 24 % 4 ≠ 0) := by norm_num
    have e5 : (2 : Nat) ^ 24 % 4 = 0 := by norm_num
    rw [e1, e2, e3, if_neg e4, e5] at h
    exact h
  rw [henc]
  set buf := [254, 0, 0, 0] ++ data ++ List.replicate 0 0 with hbuf
  have hblen : buf.length = 4 + data.length := by
    rw [hbuf]
    simp
    omega
  have hhead : ∀ k : Nat, k < 4 → buf.getD k 0 = ([254, 0, 0, 0] : List Nat).getD k 0 := by
    intro k hk
    rw [hbuf, List.append_assoc]
    exact List.getD_append _ _ 0 k (by norm_num; omega)
  have hrb0 : read_byte ⟨buf, 0, none⟩ = (.ok 254, ⟨buf, 0 + 1, none⟩) := by
    have hr := read_byte_ok buf 0 none (by omega) (by omega)
    have hget : buf.getD (0 : Int).toNat 0 = 254 := by
      rw [show ((0 : Int).toNat) = 0 from rfl, hhead 0 (by norm_num)]
      decide
    rw [hget] at hr
    exact hr
  have hrb1 : read_byte ⟨buf, 0 + 1, none⟩ = (.ok 0, ⟨buf, 0 + 1 + 1, none⟩) := by
    have hr := read_byte_ok buf (0 + 1) none (by omega) (by norm_num; omega)
    have hget : buf.getD ((0 : Int) + 1).toNat 0 = 0 := by
      rw [show (((0 : Int) + 1).toNat) = 1 from rfl, hhead 1 (by norm_num)]
      decide
    rw [hget] at hr
    exact hr
  have hrb2 : read_byte ⟨buf, 0 + 1 + 1, none⟩ = (.ok 0, ⟨buf, 0 + 1 + 1 + 1, none⟩) := by
    have hr := read_byte_ok buf (0 + 1 + 1) none (by omega) (by norm_num; omega)
    have hget : buf.getD ((0 : Int) + 1 + 1).toNat 0 = 0 := by
      rw [show (((0 : Int) + 1 + 1).toNat) = 2 from rfl, hhead 2 (by norm_num)]
      decide
    rw [hget] at hr
    exact hr
  have hrb3 : read_byte ⟨buf, 0 + 1 + 1 + 1, none⟩
      = (.ok 0, ⟨buf, 0 + 1 + 1 + 1 + 1, none⟩) := by
    have hr := read_byte_ok buf (0 + 1 + 1 + 1) none (by omega) (by norm_num; omega)
    have hget : buf.getD ((0 : Int) + 1 + 1 + 1).toNat 0 = 0 := by
      rw [show (((0 : Int) + 1 + 1 + 1).toNat) = 3 from rfl, hhead 3 (by norm_num)]
      decide
    rw [hget] at hr
    exact hr
  unfold tgread_bytes mkReader
  rw [hrb0]
  dsimp only
  rw [if_pos rfl, hrb1]
  dsimp only
  rw [hrb2]
  dsimp only
  rw [hrb3]
  dsimp only
  have hre : (0 : Nat) ||| (0 <<< 8) ||| (0 <<< 16) = 0 := by decide
  rw [hre]
  unfold tgread_bytes_payload
  have hr4 : read ⟨buf, 0 + 1 + 1 + 1 + 1, none⟩ ((0 : Nat) : Int)
      = (.ok [], ⟨buf, 0 + 1 + 1 + 1 + 1 + ((0 : Nat) : Int), some []⟩) := by
    have hr := read_ok buf (0 + 1 + 1 + 1 + 1) none 0 (by omega) (by norm_num; omega)
    have hget : (buf.drop ((0 : Int) + 1 + 1 + 1 + 1).toNat).take 0 = [] := List.take_zero _
    rw [hget] at hr
    exact hr
  rw [hr4]
  dsimp only
  rw [if_neg (by norm_num)]

/-- Counterexample to claim C2 as stated (for every byte string): a payload
of length `2 ^ 24` has its length truncated to 0 by the 3-byte header that
`serialize_bytes` writes, so decoding its encoding returns the empty byte
string, not the payload. -/
theorem claim_C2_counterexample :
    (tgread_bytes (mkReader (serialize_bytes (List.replicate (2 ^ 24) 0)))).1
      = .ok ([] : List Nat)
    ∧ List.replicate (2 ^ 24) (0 : Nat) ≠ ([] : List Nat) := by
  constructor
  · exact tgread_serialize_truncates (List.replicate (2 ^ 24) 0)
      (List.length_replicate (2 ^ 24) 0)
  · intro hcontra
    have hl := congrArg List.length hcontra
    rw [List.length_replicate] at hl
    norm_num at hl

/-- Claim C7: `default_value` follows the specification's category table —
flagged fields are absent regardless of type, vectors give the empty
sequence, and the numeric/bytes/string/double/Bool/true categories give their
documented literals, everything else being absent. -/
theorem claim_C7 (a : TLArg) :
    a.default_value = categoryLiteral (spec_default_category a) := by
  unfold TLArg.default_value spec_default_category
  split_ifs <;> first | rfl | tauto

/-- Claim C9: structural equality of generated objects is exactly
dict-projection equality — `a == b` holds iff `a.to_dict() == b.to_dict()`,
independent of object identity (the `isinstance` conjunct is subsumed by the
discriminator entry of the dict projection). -/
theorem claim_C9 (a b : TLObjectInst) : tlobject_eq a b = true ↔ to_dict a = to_dict b := by
  unfold tlobject_eq
  rw [Bool.and_eq_true, decide_eq_true_iff, decide_eq_true_iff]
  constructor
  · exact fun h => h.2
  · intro h
    refine ⟨?_, h⟩
    have hh := congrArg List.head? h
    simp only [to_dict, List.head?_cons, Option.some.injEq, Prod.mk.injEq,
      DictVal.strV.injEq] at hh
    exact hh.2

/-- A run over a prefix whose characters all satisfy `p` extends past it. -/
theorem runLen_append_of_all (p : Char → Bool) (xs ys : List Char)
    (h : ∀ c ∈ xs, p c = true) :
    runLen p (xs ++ ys) = xs.length + runLen p ys := by
  induction xs with
  | nil => simp
  | cons c cs ih =>
    have hc : p c = true := h c (List.mem_cons_self c cs)
    have ih' := ih (fun d hd => h d (List.mem_cons_of_mem c hd))
    simp [runLen, hc, ih']
    omega

/-- A run over a list whose characters all satisfy `p` is the whole list. -/
theorem runLen_eq_length (p : Char → Bool) (xs : List Char)
    (h : ∀ c ∈ xs, p c = true) : runLen p xs = xs.length := by
  have := runLen_append_of_all p xs [] h
  simpa using this

/-- A run stops at the first character violating `p`. -/
theorem runLen_cons_false (p : Char → Bool) (y : Char) (ys : List Char)
    (hy : p y = false) : runLen p (y :: ys) = 0 := by
  simp [runLen, hy]

/-- A run over an all-`p` prefix followed by a non-`p` character measures
exactly the prefix. -/
theorem runLen_boundary (p : Char → Bool) (xs : List Char) (y : Char) (ys : List Char)
    (h : ∀ c ∈ xs, p c = true) (hy : p y = false) :
    runLen p (xs ++ y :: ys) = xs.length := by
  rw [runLen_append_of_all p xs (y :: ys) h, runLen_cons_false p y ys hy]
  omega

/-- The greedy search succeeds immediately when its first (longest) candidate
does. -/
theorem firstSome_of_succ_some {α : Type} (f : Nat → Option α) (k : Nat) (v : α)
    (h : f (k + 1) = some v) : firstSome f (k + 1) = some v := by
  simp [firstSome, h]

/-- A successful greedy search names a successful candidate. -/
theorem firstSome_some_exists {α : Type} (f : Nat → Option α) (k : Nat) (v : α)
    (h : firstSome f k = some v) : ∃ j, 1 ≤ j ∧ j ≤ k ∧ f j = some v := by
  induction k with
  | zero => simp [firstSome] at h
  | succ k ih =>
    unfold firstSome at h
    cases hf : f (k + 1) with
    | some w =>
      rw [hf] at h
      have hw : some w = some v := h
      exact ⟨k + 1, by omega, by omega, by rw [hf, hw]⟩
    | none =>
      rw [hf] at h
      have htail : firstSome f k = some v := h
      obtain ⟨j, h1, h2, h3⟩ := ih htail
      exact ⟨j, h1, by omega, h3⟩

/-- Any successful flag-pattern match found a literal question mark. -/
theorem mem_of_matchFlag_some (s : List Char) (gs : List Char × List Char × List Char)
    (h : matchFlag s = some gs) : '?' ∈ s := by
  obtain ⟨l1, _, _, h1⟩ := firstSome_some_exists _ _ _ h
  unfold flagTryG1 at h1
  cases hd : s.drop l1 with
  | nil =>
    rw [hd] at h1
    exact absurd h1 (by simp)
  | cons c rest2 =>
    rw [hd] at h1
    have h1' : (if c ≠ '\n' then
        firstSome (flagTryG2 (s.take l1) rest2) (runLen Char.isDigit rest2)
      else none) = some gs := h1
    by_cases hc : c ≠ '\n'
    · rw [if_pos hc] at h1'
      obtain ⟨l2, _, _, h2⟩ := firstSome_some_exists _ _ _ h1'
      unfold flagTryG2 at h2
      cases hd2 : rest2.drop l2 with
      | nil =>
        rw [hd2] at h2
        exact absurd h2 (by simp)
      | cons c2 rest4 =>
        rw [hd2] at h2
        have h2' : (if c2 = '?' then
            if 0 < runLen isFlagTypeChar rest4 then
              some (s.take l1, rest2.take l2, rest4.take (runLen isFlagTypeChar rest4))
            else none
          else none) = some gs := h2
        have hq : c2 = '?' := by
          by_contra hne
          rw [if_neg hne] at h2'
          exact absurd h2' (by simp)
        have hmem : '?' ∈ rest2.drop l2 := by
          rw [hd2, hq]
          exact List.mem_cons_self _ _
        have h3 : '?' ∈ rest2 := List.mem_of_mem_drop hmem
        have h4 : '?' ∈ s.drop l1 := by
          rw [hd]
          exact List.mem_cons_of_mem c h3
        exact List.mem_of_mem_drop h4
    · rw [if_neg hc] at h1'
      exact absurd h1' (by simp)

/-- A string without a question mark cannot match the flag pattern. -/
theorem matchFlag_none_of_no_q (s : List Char) (h : '?' ∉ s) : matchFlag s = none := by
  cases hm : matchFlag s with
  | none => rfl
  | some gs => exact absurd (mem_of_matchFlag_some s gs hm) h

/-- The flag pattern on a canonical flagged token `F.N?rest` matches with
groups `F`, `N`, `rest` at the first (greedy) attempt. -/
theorem matchFlag_shape (F N rest : List Char)
    (hF : F ≠ []) (hFw : ∀ ch ∈ F, isWordChar ch = true)
    (hN : N ≠ []) (hNd : ∀ ch ∈ N, Char.isDigit ch = true)
    (hrest : rest ≠ []) (hrestc : ∀ ch ∈ rest, isFlagTypeChar ch = true) :
    matchFlag (F ++ '.' :: (N ++ '?' :: rest)) = some (F, N, rest) := by
  have h1 : runLen isWordChar (F ++ '.' :: (N ++ '?' :: rest)) = F.length :=
    runLen_boundary isWordChar F '.' (N ++ '?' :: rest) hFw (by decide)
  unfold matchFlag
  rw [h1]
  obtain ⟨m, hm⟩ := Nat.exists_eq_succ_of_ne_zero
    (fun h0 => hF (List.eq_nil_of_length_eq_zero h0))
  rw [hm]
  apply firstSome_of_succ_some
  rw [show m + 1 = F.length by omega]
  unfold flagTryG1
  rw [List.drop_left]
  dsimp only
  rw [if_pos (by decide)]
  rw [List.take_left]
  have h2 : runLen Char.isDigit (N ++ '?' :: rest) = N.length :=
    runLen_boundary Char.isDigit N '?' rest hNd (by decide)
  rw [h2]
  obtain ⟨m2, hm2⟩ := Nat.exists_eq_succ_of_ne_zero
    (fun h0 => hN (List.eq_nil_of_length_eq_zero h0))
  rw [hm2]
  apply firstSome_of_succ_some
  rw [show m2 + 1 = N.length by omega]
  unfold flagTryG2
  rw [List.drop_left]
  dsimp only
  rw [if_pos rfl]
  have h3 : runLen isFlagTypeChar rest = rest.length := runLen_eq_length _ _ hrestc
  rw [h3]
  rw [if_pos (by
    have := List.length_pos.mpr hrest
    omega)]
  rw [List.take_left, List.take_length]

/-- The vector pattern does not match a plain well-formed name (the name
cannot contain the `<` the pattern requires). -/
theorem matchVector_plain_none (b : List Char) (hwf : wfBase b) : matchVector b = none := by
  obtain ⟨hne, hall, _⟩ := hwf
  cases b with
  | nil => rfl
  | cons c cs =>
    unfold matchVector
    dsimp only
    by_cases hc : c = 'V' ∨ c = 'v'
    · rw [if_pos hc]
      have htake : cs.take 6 ≠ "ector<".data := by
        intro heq
        have hmem : '<' ∈ cs.take 6 := by
          rw [heq]
          decide
        have : isBaseChar '<' = true :=
          hall '<' (List.mem_cons_of_mem c (List.mem_of_mem_take hmem))
        exact absurd this (by decide)
      rw [if_neg htake]
    · rw [if_neg hc]

/-- The vector pattern on `Vector<b>` / `vector<b>` matches with group `b`. -/
theorem matchVector_wrap (hd : Char) (hhd : hd = 'V' ∨ hd = 'v') (b : List Char)
    (hwf : wfBase b) :
    matchVector (hd :: ("ector<".data ++ b ++ ">".data)) = some b := by
  obtain ⟨hne, hall, _⟩ := hwf
  unfold matchVector
  dsimp only
  rw [if_pos hhd]
  have h6 : ("ector<".data ++ b ++ ">".data).take 6 = "ector<".data := by
    rw [List.append_assoc]
    exact List.take_left' (by decide)
  rw [h6, if_pos rfl]
  have hdrop : ("ector<".data ++ b ++ ">".data).drop 6 = b ++ ">".data := by
    rw [List.append_assoc]
    exact List.drop_left' (by decide)
  rw [hdrop]
  have hrun : runLen isVecInnerChar (b ++ ">".data) = b.length := by
    have : (">".data : List Char) = '>' :: [] := rfl
    rw [this]
    exact runLen_boundary isVecInnerChar b '>' []
      (fun c hc => by
        have hb := hall c hc
        unfold isBaseChar at hb
        unfold isVecInnerChar
        exact hb)
      (by decide)
  rw [hrun]
  obtain ⟨m, hm⟩ := Nat.exists_eq_succ_of_ne_zero
    (fun h0 => hne (List.eq_nil_of_length_eq_zero h0))
  rw [hm]
  apply firstSome_of_succ_some
  rw [show m + 1 = b.length by omega]
  rw [List.drop_left]
  dsimp only
  rw [if_pos rfl]
  rw [List.take_left]

/-- Name characters lie in the flag pattern's type class. -/
theorem baseChar_flagTypeChar (c : Char) (h : isBaseChar c = true) :
    isFlagTypeChar c = true := by
  unfold isBaseChar at h
  unfold isFlagTypeChar
  rcases Bool.or_eq_true_iff.mp h with hw | hd
  · rw [hw]
    rfl
  · rw [hd]
    simp

/-- Every character of a well-formed core's text lies in `[\w<>.]`. -/
theorem renderCore_all_flag (c : CoreTok) (hwf : wfCore c) :
    ∀ ch ∈ renderCore c, isFlagTypeChar ch = true := by
  have hlitV : ∀ x ∈ ("Vector<".data : List Char), isFlagTypeChar x = true := by decide
  have hlitv : ∀ x ∈ ("vector<".data : List Char), isFlagTypeChar x = true := by decide
  have hlitg : ∀ x ∈ (">".data : List Char), isFlagTypeChar x = true := by decide
  cases c with
  | plainName b =>
    intro ch hch
    exact baseChar_flagTypeChar ch (hwf.2.1 ch hch)
  | vectorOf bx b =>
    intro ch hch
    cases bx <;>
      rcases List.mem_append.mp hch with hch2 | hch2 <;>
        first
        | exact hlitg ch hch2
        | rcases List.mem_append.mp hch2 with hch3 | hch3 <;>
            first
            | exact hlitV ch hch3
            | exact hlitv ch hch3
            | exact baseChar_flagTypeChar ch (hwf.2.1 ch hch3)

/-- A well-formed core renders to nonempty text. -/
theorem renderCore_ne_nil (c : CoreTok) (hwf : wfCore c) : renderCore c ≠ [] := by
  cases c with
  | plainName b => exact hwf.1
  | vectorOf bx b =>
    cases bx <;> simp [renderCore]

/-- The rendered core starts with a `[\w<>.]` character. -/
theorem renderCore_head_flag (c : CoreTok) (hwf : wfCore c) :
    ∃ hd tl, renderCore c = hd :: tl ∧ isFlagTypeChar hd = true := by
  cases hrc : renderCore c with
  | nil => exact absurd hrc (renderCore_ne_nil c hwf)
  | cons hd tl =>
    refine ⟨hd, tl, rfl, ?_⟩
    have : hd ∈ renderCore c := by
      rw [hrc]
      exact List.mem_cons_self hd tl
    exact renderCore_all_flag c hwf hd this

/-- The rendered core is not the flag-indicator token `#`. -/
theorem renderCore_ne_hash (c : CoreTok) (hwf : wfCore c) : renderCore c ≠ "#".data := by
  intro heq
  have : '#' ∈ renderCore c := by
    rw [heq]
    decide
  have := renderCore_all_flag c hwf '#' this
  exact absurd this (by decide)

/-- The rendered core contains no question mark, so the flag pattern cannot
match it. -/
theorem matchFlag_renderCore (c : CoreTok) (hwf : wfCore c) :
    matchFlag (renderCore c) = none := by
  apply matchFlag_none_of_no_q
  intro hmem
  have := renderCore_all_flag c hwf '?' hmem
  exact absurd this (by decide)

/-- The rendered core does not start with an exclamation mark. -/
theorem renderCore_head_ne_bang (c : CoreTok) (hwf : wfCore c) :
    (renderCore c).head? ≠ some '!' := by
  obtain ⟨hd, tl, hrc, hflag⟩ := renderCore_head_flag c hwf
  rw [hrc]
  intro hsome
  have : hd = '!' := by
    simpa using hsome
  rw [this] at hflag
  exact absurd hflag (by decide)

/-- `lstrip('!')` is the identity on text not starting with `!`. -/
theorem lstripBang_eq_self (l : List Char) (h : l.head? ≠ some '!') : lstripBang l = l := by
  cases l with
  | nil => rfl
  | cons c cs =>
    unfold lstripBang
    rw [if_neg (by simpa using h)]

/-- `decDigit` always yields an ASCII digit. -/
theorem decDigit_isDigit : ∀ d : Nat, (decDigit d).isDigit = true
  | 0 => rfl
  | 1 => rfl
  | 2 => rfl
  | 3 => rfl
  | 4 => rfl
  | 5 => rfl
  | 6 => rfl
  | 7 => rfl
  | 8 => rfl
  | _ + 9 => rfl

/-- `decDigit` inverts to its digit for values below 10. -/
theorem charToDigit_decDigit (d : Nat) (h : d < 10) : charToDigit (decDigit d) = d := by
  interval_cases d <;> decide

/-- Every character a sufficiently fuelled emission produces is a digit. -/
theorem natToCharsAux_all_digit (fuel : Nat) :
    ∀ n, n < fuel → ∀ c ∈ natToCharsAux fuel n, c.isDigit = true := by
  induction fuel with
  | zero =>
    intro n hn
    omega
  | succ fuel ih =>
    intro n hn c hc
    unfold natToCharsAux at hc
    by_cases h : n < 10
    · rw [if_pos h] at hc
      rw [List.mem_singleton.mp hc]
      exact decDigit_isDigit n
    · rw [if_neg h] at hc
      rcases List.mem_append.mp hc with hc2 | hc2
      · exact ih (n / 10) (by omega) c hc2
      · rw [List.mem_singleton.mp hc2]
        exact decDigit_isDigit (n % 10)

/-- Every character of a decimal rendering is a digit. -/
theorem natToChars_all_digit (n : Nat) : ∀ c ∈ natToChars n, c.isDigit = true :=
  natToCharsAux_all_digit (n + 1) n (by omega)

/-- A decimal rendering is nonempty. -/
theorem natToChars_ne_nil (n : Nat) : natToChars n ≠ [] := by
  unfold natToChars natToCharsAux
  by_cases h : n < 10
  · rw [if_pos h]
    simp
  · rw [if_neg h]
    simp

/-- Parsing a sufficiently fuelled emission recovers the number. -/
theorem parseNat_natToCharsAux (fuel : Nat) :
    ∀ n, n < fuel → parseNatChars (natToCharsAux fuel n) = n := by
  induction fuel with
  | zero =>
    intro n hn
    omega
  | succ fuel ih =>
    intro n hn
    unfold natToCharsAux
    by_cases h : n < 10
    · rw [if_pos h]
      have h1 : parseNatChars [decDigit n] = charToDigit (decDigit n) := by
        simp [parseNatChars]
      rw [h1, charToDigit_decDigit n h]
    · rw [if_neg h]
      have ihm := ih (n / 10) (by omega)
      unfold parseNatChars at ihm ⊢
      rw [List.foldl_append]
      rw [ihm]
      simp only [List.foldl]
      rw [charToDigit_decDigit (n % 10) (by omega)]
      omega

/-- Parsing a decimal rendering recovers the number (Python `int` of the
formatted value). -/
theorem parseNat_natToChars (n : Nat) : parseNatChars (natToChars n) = n :=
  parseNat_natToCharsAux (n + 1) n (by omega)

/-- The vector-resolution tail of the constructor succeeds on a well-formed
core (its final dotted component is nonempty, so the `skip_constructor_id`
indexing cannot raise), and `real_type` of the produced argument rebuilds the
core text with the generic and flag wrappers applied around it. -/
theorem mkTLArgVec_real_type (c : CoreTok) (hwf : wfCore c) (nm : List Char) (g : Bool)
    (fl : Option (List Char)) (fi : Int) (gd : Bool) :
    (mkTLArgVec nm g fl fi (renderCore c) gd).map TLArg.real_type
      = some (match fl with
         | some f =>
           f ++ ".".data ++ intRepr fi ++ "?".data
             ++ (if g then "!".data ++ renderCore c else renderCore c)
         | none => if g then "!".data ++ renderCore c else renderCore c) := by
  cases c with
  | plainName b =>
    obtain ⟨c0, ctl, hlc⟩ : ∃ c0 ctl, lastComponent b = c0 :: ctl := by
      cases hl : lastComponent b with
      | nil => exact absurd hl hwf.2.2
      | cons c0 ctl => exact ⟨c0, ctl, rfl⟩
    unfold mkTLArgVec
    simp only [renderCore]
    rw [matchVector_plain_none b hwf]
    unfold skip_constructor_check
    rw [hlc]
    cases fl <;> simp [TLArg.real_type, renderCore]
  | vectorOf bx b =>
    have hwfb : wfBase b := hwf
    obtain ⟨c0, ctl, hlc⟩ : ∃ c0 ctl, lastComponent b = c0 :: ctl := by
      cases hl : lastComponent b with
      | nil => exact absurd hl hwfb.2.2
      | cons c0 ctl => exact ⟨c0, ctl, rfl⟩
    have hwrap : matchVector (renderCore (CoreTok.vectorOf bx b)) = some b := by
      cases bx
      · have hshape : renderCore (CoreTok.vectorOf false b)
            = 'v' :: ("ector<".data ++ b ++ ">".data) := rfl
        rw [hshape]
        exact matchVector_wrap 'v' (Or.inr rfl) b hwfb
      · have hshape : renderCore (CoreTok.vectorOf true b)
            = 'V' :: ("ector<".data ++ b ++ ">".data) := rfl
        rw [hshape]
        exact matchVector_wrap 'V' (Or.inl rfl) b hwfb
    unfold mkTLArgVec
    rw [hwrap]
    dsimp only
    unfold skip_constructor_check
    rw [hlc]
    cases bx
    · have hhd : decide ((renderCore (CoreTok.vectorOf false b)).head? = some 'V') = false := rfl
      rw [hhd]
      cases fl <;> simp [TLArg.real_type, renderCore]
    · have hhd : decide ((renderCore (CoreTok.vectorOf true b)).head? = some 'V') = true := rfl
      rw [hhd]
      cases fl <;> simp [TLArg.real_type, renderCore]

/-- Claim C6 as amended: for every type token of the grammar that
`real_type` itself can print — `#`, a well-formed bare/boxed name (final
dotted component nonempty), a `Vector<...>`/`vector<...>` of one, a generic
`!`-wrapped core, or a `FLAGS.N?`-wrapped core with `N` canonical and flag
and generic not combined — constructing a `TLArg` from the token succeeds
(no `IndexError`) and taking `real_type` returns the token byte-for-byte. -/
theorem claim_C6 (t : TypeTok) (hwf : wfTok t) (nm : List Char) (gd : Bool) :
    (mkTLArg nm (renderTok t) gd).map TLArg.real_type = some (renderTok t) := by
  cases t with
  | hash =>
    unfold renderTok mkTLArg
    rw [if_pos rfl]
    simp [TLArg.real_type]
  | plainTok c =>
    have hwfc : wfCore c := hwf
    unfold renderTok mkTLArg
    rw [if_neg (renderCore_ne_hash c hwfc)]
    rw [lstripBang_eq_self _ (renderCore_head_ne_bang c hwfc)]
    rw [matchFlag_renderCore c hwfc]
    dsimp only
    rw [decide_eq_false (renderCore_head_ne_bang c hwfc)]
    rw [mkTLArgVec_real_type c hwfc]
    simp
  | genericTok c =>
    have hwfc : wfCore c := hwf
    unfold renderTok mkTLArg
    have hsh : "!".data ++ renderCore c = '!' :: renderCore c := rfl
    have hne : ¬("!".data ++ renderCore c = "#".data) := by
      rw [hsh]
      intro h
      have h' : '!' :: renderCore c = '#' :: [] := h
      injection h' with h1 _
      exact absurd h1 (by decide)
    rw [if_neg hne]
    have hgen : decide (("!".data ++ renderCore c).head? = some '!') = true := rfl
    have hstrip : lstripBang ("!".data ++ renderCore c) = renderCore c := by
      rw [hsh]
      unfold lstripBang
      rw [if_pos rfl]
      exact lstripBang_eq_self _ (renderCore_head_ne_bang c hwfc)
    rw [hstrip, matchFlag_renderCore c hwfc]
    dsimp only
    rw [hgen]
    rw [mkTLArgVec_real_type c hwfc]
    simp
  | flaggedTok f bit c =>
    obtain ⟨hf, hfw, hwfc⟩ := hwf
    obtain ⟨f0, ftl, rfl⟩ : ∃ f0 ftl, f = f0 :: ftl := by
      cases f with
      | nil => exact absurd rfl hf
      | cons f0 ftl => exact ⟨f0, ftl, rfl⟩
    have hf0w : isWordChar f0 = true := hfw f0 (List.mem_cons_self f0 ftl)
    unfold renderTok mkTLArg
    have hshape : (f0 :: ftl) ++ ".".data ++ natToChars bit ++ "?".data ++ renderCore c
        = (f0 :: ftl) ++ '.' :: (natToChars bit ++ '?' :: renderCore c) := by
      simp
    have hne : ¬((f0 :: ftl) ++ ".".data ++ natToChars bit ++ "?".data ++ renderCore c
        = "#".data) := by
      rw [hshape]
      intro h
      have h' : f0 :: (ftl ++ '.' :: (natToChars bit ++ '?' :: renderCore c))
          = '#' :: [] := h
      injection h' with h1 _
      rw [h1] at hf0w
      exact absurd hf0w (by decide)
    rw [if_neg hne]
    have hheadne : ¬(((f0 :: ftl) ++ ".".data ++ natToChars bit ++ "?".data
        ++ renderCore c).head? = some '!') := by
      intro h
      have h' : some f0 = some '!' := h.symm.trans rfl |>.symm ▸ h
      have h2 : f0 = '!' := by
        have h3 : ((f0 :: ftl) ++ ".".data ++ natToChars bit ++ "?".data
            ++ renderCore c).head? = some f0 := rfl
        rw [h3] at h
        simpa using h
      rw [h2] at hf0w
      exact absurd hf0w (by decide)
    rw [lstripBang_eq_self _ hheadne]
    rw [hshape]
    rw [matchFlag_shape (f0 :: ftl) (natToChars bit) (renderCore c)
      (by simp) hfw (natToChars_ne_nil bit) (natToChars_all_digit bit)
      (renderCore_ne_nil c hwfc) (renderCore_all_flag c hwfc)]
    dsimp only
    rw [decide_eq_false hheadne]
    rw [parseNat_natToChars bit]
    rw [mkTLArgVec_real_type c hwfc]
    have hrepr : intRepr ((bit : Nat) : Int) = natToChars bit := by
      unfold intRepr
      rw [if_neg (by omega), Int.toNat_natCast]
    simp [hrepr]

/-- Witness for the amended C6 at the token `flags.2?Vector<int>`. -/
theorem claim_C6_witness :
    wfTok (TypeTok.flaggedTok "flags".data 2 (CoreTok.vectorOf true "int".data))
    ∧ (mkTLArg "x".data
        (renderTok (TypeTok.flaggedTok "flags".data 2 (CoreTok.vectorOf true "int".data)))
        false).map TLArg.real_type
      = some (renderTok (TypeTok.flaggedTok "flags".data 2 (CoreTok.vectorOf true "int".data))) := by
  have hwf : wfTok (TypeTok.flaggedTok "flags".data 2 (CoreTok.vectorOf true "int".data)) :=
    ⟨by decide, by decide, by decide, by decide, by decide⟩
  exact ⟨hwf, claim_C6 _ hwf "x".data false⟩

/-- Counterexample to claim C6 as stated: §4.2's resolution rules (applied
in order: strip the `!`, then resolve the flag) accept the token
`!flags.0?X`, but `real_type` re-applies the generic wrapper inside the flag
wrapper and prints `flags.0?!X`, which differs from the original token. -/
theorem claim_C6_counterexample :
    (mkTLArg "x".data "!flags.0?X".data false).map TLArg.real_type
      = some "flags.0?!X".data
    ∧ "flags.0?!X".data ≠ "!flags.0?X".data := by
  constructor
  · decide
  · decide

end TLSpec
